import Mathlib

/-
Formal model of the vulnerability detection and finding-merge pipeline of
src/src/security_analyzer.py (class SecurityAnalyzer).

Modelling conventions:
  * Python strings are modelled as List Char.
  * Python dicts holding findings are modelled by the structure Finding whose
    fields are Option-valued (a missing key is none).
  * External effects are oracles passed in an environment: the LLM engine
    generate method, the try-block body of get_nvd_info (HTTP request plus
    JSON extraction), and the BeautifulSoup form/script extraction.
  * CVSS scores (floats parsed from JSON decimals) are modelled as Rat.
-/

namespace SecurityAnalyzer

/-- Python whitespace test (ASCII range) used to model str.strip and the
regex whitespace class; the analyzer only feeds it ASCII text. -/
def isPySpace (c : Char) : Bool :=
  c == ' ' || c == '\t' || c == '\n' || c == '\r' || c == '\x0b' || c == '\x0c'

/-- Model of Python str.strip with no argument: remove leading and trailing
whitespace. -/
def pyStrip (s : List Char) : List Char :=
  ((s.dropWhile isPySpace).reverse.dropWhile isPySpace).reverse

/-- Model of the Python substring test needle in hay. -/
def containsSub (needle : List Char) : List Char → Bool
  | [] => needle.isEmpty
  | c :: t => needle.isPrefixOf (c :: t) || containsSub needle t

/-- Model of Python str.split with a single-character separator. -/
def splitOnChar (sep : Char) : List Char → List (List Char)
  | [] => [[]]
  | c :: t =>
    if c = sep then [] :: splitOnChar sep t
    else
      match splitOnChar sep t with
      | [] => [[c]]
      | h :: r => (c :: h) :: r

/-- Worker for splitOnStr; acc holds the current piece reversed. -/
def splitOnStrGo (sep : List Char) : List Char → List Char → List (List Char)
  | [], acc => [acc.reverse]
  | c :: rest, acc =>
    if h : sep ≠ [] ∧ sep.isPrefixOf (c :: rest) then
      acc.reverse :: splitOnStrGo sep ((c :: rest).drop sep.length) []
    else
      splitOnStrGo sep rest (c :: acc)
termination_by l _ => l.length
decreasing_by
  · simp only [List.length_drop, List.length_cons]
    exact Nat.sub_lt (Nat.succ_pos _) (List.length_pos.mpr h.1)
  · simp

/-- Model of Python str.split with a nonempty string separator (left-to-right,
non-overlapping). -/
def splitOnStr (sep s : List Char) : List (List Char) :=
  splitOnStrGo sep s []

/-- Model of Python str.replace of a nonempty substring by the empty string:
the source only ever replaces a tag such as Type: by the empty string. -/
def removeAll (sub s : List Char) : List Char :=
  (splitOnStr sub s).flatten

/-- Decimal digit run to a number; none when empty or a non-digit occurs. -/
def digitsToNat (l : List Char) : Option Nat :=
  if l ≠ [] ∧ l.all Char.isDigit then
    some (l.foldl (fun a c => a * 10 + (c.toNat - 48)) 0)
  else none

/-- Model of Python int applied to a string, as used on the Line: field of the
model reply (whitespace-trimmed optional sign then digits).  Python also
accepts underscores between digits and non-ASCII digits; no claim depends on
those forms and the reply text is ASCII. -/
def pyToInt (s : List Char) : Option Int :=
  match pyStrip s with
  | '+' :: r => (digitsToNat r).map Int.ofNat
  | '-' :: r => (digitsToNat r).map (fun n => -(Int.ofNat n))
  | r => (digitsToNat r).map Int.ofNat

/-- Model of Python str.isdigit for the ASCII CWE identifiers the analyzer
handles: nonempty and all decimal digits. -/
def pyIsDigit (s : List Char) : Bool :=
  !s.isEmpty && s.all Char.isDigit

/-! ### Regular expression engine

The eight patterns of initialize_patterns only star, repeat or option
single-character items, and use one negative lookahead; the abstract syntax
below covers exactly those forms.  Matching is by a backtracking matcher in
continuation-passing style, which reproduces the priority order of the Python
re module: leftmost match position, greedy repetition, alternatives in order.
The flags re.IGNORECASE and re.DOTALL of pattern_match are built in: literals
compare lowercased and the dot class accepts every character. -/

/-- Single-character matchers appearing in the source patterns. -/
inductive CharCls where
  | lit (c : Char)
  | dot
  | white
  | noneOf (cs : List Char)
  | oneOf (cs : List Char)
deriving DecidableEq, Repr

/-- Character class semantics (dot accepts newline because pattern_match
passes re.DOTALL; literals ignore case because it passes re.IGNORECASE). -/
def clsMatch : CharCls → Char → Bool
  | .lit c, x => x.toLower == c.toLower
  | .dot, _ => true
  | .white, x => isPySpace x
  | .noneOf cs, x => !(cs.contains x)
  | .oneOf cs, x => cs.contains x

/-- Abstract syntax of the eight source regexes. -/
inductive Rx where
  | cls (c : CharCls)
  | str (s : List Char)
  | seq (a b : Rx)
  | star (c : CharCls)
  | plus (c : CharCls)
  | opt (c : CharCls)
  | alts (ss : List (List Char))
  | nla (r : Rx)
deriving DecidableEq, Repr

/-- Match a literal string, case-insensitively, then continue. -/
def matchLit : List Char → List Char → Nat → (List Char → Nat → Option Nat) → Option Nat
  | [], s, pos, k => k s pos
  | c :: lt, s, pos, k =>
    match s with
    | [] => none
    | x :: t => if x.toLower == c.toLower then matchLit lt t (pos + 1) k else none

/-- First defined result, in order: the priority rule for alternatives. -/
def firstSome : List (Option Nat) → Option Nat
  | [] => none
  | some x :: _ => some x
  | none :: rest => firstSome rest

/-- Greedy repetition of a single-character matcher: prefer consuming more,
backtrack into the continuation. -/
def starRun (p : Char → Bool) : List Char → Nat → (List Char → Nat → Option Nat) → Option Nat
  | [], pos, k => k [] pos
  | c :: t, pos, k =>
    if p c then
      match starRun p t (pos + 1) k with
      | some e => some e
      | none => k (c :: t) pos
    else k (c :: t) pos

/-- Backtracking matcher in continuation-passing style.  rxMatch r s pos k
tries to match r at the head of s (absolute position pos) and passes the rest
and the new position to k; the first success in priority order wins, as in
the Python re module. -/
def rxMatch : Rx → List Char → Nat → (List Char → Nat → Option Nat) → Option Nat
  | .cls c, s, pos, k =>
    match s with
    | [] => none
    | x :: t => if clsMatch c x then k t (pos + 1) else none
  | .str l, s, pos, k => matchLit l s pos k
  | .seq a b, s, pos, k => rxMatch a s pos (fun s' p' => rxMatch b s' p' k)
  | .star c, s, pos, k => starRun (clsMatch c) s pos k
  | .plus c, s, pos, k =>
    match s with
    | [] => none
    | x :: t => if clsMatch c x then starRun (clsMatch c) t (pos + 1) k else none
  | .opt c, s, pos, k =>
    match s with
    | [] => k [] pos
    | x :: t =>
      if clsMatch c x then
        match k t (pos + 1) with
        | some e => some e
        | none => k (x :: t) pos
      else k (x :: t) pos
  | .alts ss, s, pos, k => firstSome (ss.map (fun l => matchLit l s pos k))
  | .nla r, s, pos, k =>
    match rxMatch r s pos (fun _ p => some p) with
    | some _ => none
    | none => k s pos

/-- Scan for successive non-overlapping matches as re.finditer does: try each
start position left to right; on a match resume right after it (after an
empty match, advance one character).  Returns (start, stop) index pairs.
The fuel argument only bounds the recursion; length s + 1 always suffices. -/
def finditerAux (re : Rx) : Nat → List Char → Nat → List (Nat × Nat)
  | 0, _, _ => []
  | fuel + 1, s, pos =>
    match rxMatch re s pos (fun _ p => some p) with
    | some e =>
      if pos < e then (pos, e) :: finditerAux re fuel (s.drop (e - pos)) e
      else
        (pos, e) ::
          (match s with
           | [] => []
           | _ :: t => finditerAux re fuel t (pos + 1))
    | none =>
      match s with
      | [] => []
      | _ :: t => finditerAux re fuel t (pos + 1)

/-- Model of re.finditer over the whole input. -/
def finditer (re : Rx) (s : List Char) : List (Nat × Nat) :=
  finditerAux re (s.length + 1) s 0

/-! ### Data model -/

/-- One entry of the examples list built by get_nvd_info from an NVD record
(lines 312 to 317 of the source); score is the CVSS base score, a decimal
from the JSON reply, modelled as a rational. -/
structure NvdExample where
  id : List Char
  description : List Char
  severity : List Char
  score : Rat
deriving DecidableEq, Repr

/-- Return value of get_nvd_info: the success dictionary has no error key
(error is none), the failure dictionary carries the message and an empty
examples list. -/
structure NvdInfo where
  cwe_id : List Char
  error : Option (List Char)
  examples : List NvdExample
deriving DecidableEq, Repr

/-- The line value of a finding: an int for pattern findings and for model
replies whose Line: field parses as an integer, otherwise the raw text
(source lines 240 to 244). -/
inductive LineVal where
  | int (n : Int)
  | str (s : List Char)
deriving DecidableEq, Repr

/-- A finding dictionary.  Every key that any code path may set is a field;
a missing key is none. -/
structure Finding where
  type : Option (List Char) := none
  subtype : Option (List Char) := none
  cwe : Option (List Char) := none
  description : Option (List Char) := none
  line : Option LineVal := none
  code : Option (List Char) := none
  context : Option (List Char) := none
  source : Option (List Char) := none
  fix : Option (List Char) := none
  chunk : Option Nat := none
  nvd_info : Option NvdInfo := none
deriving DecidableEq, Repr, Inhabited

/-- One entry of a pattern database of initialize_patterns: the compiled
regex together with the fixed metadata copied into each finding. -/
structure PatternSpec where
  regex : Rx
  cwe : List Char
  type : List Char
  subtype : List Char
  description : List Char
deriving DecidableEq, Repr

/-! ### The pattern databases (initialize_patterns, lines 25 to 96)

Each regex field below is the abstract syntax of the raw regex string of the
source, in order:
  xss 1   <script> .* document\.write \s* \( .* location .* \)
  xss 2   <script> .* document\.write \s* \( .* localStorage .* \)
  xss 3   <script> .* innerHTML \s* = .* location .*
  xss 4   <input [^>]* value \s* = \s* [".]? \s* <\?php \s+ echo \s+ \$_ (GET|POST|REQUEST)
  csrf 1  <form [^>]* method \s* = \s* [".]? \s* POST [".]? [^>]* > (?! .* csrf )
  info 1  <!-- .* password .* -->
  info 2  <!-- .* TODO .* -->
  info 3  <input [^>]* type \s* = \s* [".]? password [".]? [^>]* autocomplete \s* = \s* [".]? on [".]?
where [".]? above abbreviates an optional double or single quote. -/

/-- The two quote characters of the optional-quote class. -/
def quoteChars : List Char := ['"', Char.ofNat 39]

/-- Build a sequence from a nonempty list of regex pieces. -/
def rxSeq (l : List Rx) : Rx :=
  match l with
  | [] => Rx.str []
  | r :: rest => rest.foldl Rx.seq r

def xss_patterns : List PatternSpec :=
  [ { regex := rxSeq [Rx.str "<script>".toList, Rx.star CharCls.dot,
        Rx.str "document.write".toList, Rx.star CharCls.white, Rx.cls (CharCls.lit '('),
        Rx.star CharCls.dot, Rx.str "location".toList, Rx.star CharCls.dot,
        Rx.cls (CharCls.lit ')')],
      cwe := "79".toList, type := "XSS".toList,
      subtype := "DOM-based XSS".toList,
      description := "DOM-based XSS using document.write with location".toList },
    { regex := rxSeq [Rx.str "<script>".toList, Rx.star CharCls.dot,
        Rx.str "document.write".toList, Rx.star CharCls.white, Rx.cls (CharCls.lit '('),
        Rx.star CharCls.dot, Rx.str "localStorage".toList, Rx.star CharCls.dot,
        Rx.cls (CharCls.lit ')')],
      cwe := "79".toList, type := "XSS".toList,
      subtype := "DOM-based XSS".toList,
      description := "DOM-based XSS using document.write with localStorage".toList },
    { regex := rxSeq [Rx.str "<script>".toList, Rx.star CharCls.dot,
        Rx.str "innerHTML".toList, Rx.star CharCls.white, Rx.cls (CharCls.lit '='),
        Rx.star CharCls.dot, Rx.str "location".toList, Rx.star CharCls.dot],
      cwe := "79".toList, type := "XSS".toList,
      subtype := "DOM-based XSS".toList,
      description := "DOM-based XSS setting innerHTML from location".toList },
    { regex := rxSeq [Rx.str "<input".toList, Rx.star (CharCls.noneOf ['>']),
        Rx.str "value".toList, Rx.star CharCls.white, Rx.cls (CharCls.lit '='),
        Rx.star CharCls.white, Rx.opt (CharCls.oneOf quoteChars), Rx.star CharCls.white,
        Rx.str "<?php".toList, Rx.plus CharCls.white, Rx.str "echo".toList,
        Rx.plus CharCls.white, Rx.str "$_".toList,
        Rx.alts ["GET".toList, "POST".toList, "REQUEST".toList]],
      cwe := "79".toList, type := "XSS".toList,
      subtype := "Reflected XSS".toList,
      description := "Reflected XSS via PHP echo of user input".toList } ]

def csrf_patterns : List PatternSpec :=
  [ { regex := rxSeq [Rx.str "<form".toList, Rx.star (CharCls.noneOf ['>']),
        Rx.str "method".toList, Rx.star CharCls.white, Rx.cls (CharCls.lit '='),
        Rx.star CharCls.white, Rx.opt (CharCls.oneOf quoteChars), Rx.star CharCls.white,
        Rx.str "POST".toList, Rx.opt (CharCls.oneOf quoteChars),
        Rx.star (CharCls.noneOf ['>']), Rx.cls (CharCls.lit '>'),
        Rx.nla (Rx.seq (Rx.star CharCls.dot) (Rx.str "csrf".toList))],
      cwe := "352".toList, type := "CSRF".toList,
      subtype := "Missing Token".toList,
      description := "POST form without CSRF token".toList } ]

def info_disclosure_patterns : List PatternSpec :=
  [ { regex := rxSeq [Rx.str "<!--".toList, Rx.star CharCls.dot,
        Rx.str "password".toList, Rx.star CharCls.dot, Rx.str "-->".toList],
      cwe := "200".toList, type := "Information Disclosure".toList,
      subtype := "Sensitive Comment".toList,
      description := "Comment containing password information".toList },
    { regex := rxSeq [Rx.str "<!--".toList, Rx.star CharCls.dot,
        Rx.str "TODO".toList, Rx.star CharCls.dot, Rx.str "-->".toList],
      cwe := "200".toList, type := "Information Disclosure".toList,
      subtype := "Developer Comment".toList,
      description := "Developer TODO comment in production code".toList },
    { regex := rxSeq [Rx.str "<input".toList, Rx.star (CharCls.noneOf ['>']),
        Rx.str "type".toList, Rx.star CharCls.white, Rx.cls (CharCls.lit '='),
        Rx.star CharCls.white, Rx.opt (CharCls.oneOf quoteChars),
        Rx.str "password".toList, Rx.opt (CharCls.oneOf quoteChars),
        Rx.star (CharCls.noneOf ['>']), Rx.str "autocomplete".toList,
        Rx.star CharCls.white, Rx.cls (CharCls.lit '='), Rx.star CharCls.white,
        Rx.opt (CharCls.oneOf quoteChars), Rx.str "on".toList,
        Rx.opt (CharCls.oneOf quoteChars)],
      cwe := "200".toList, type := "Information Disclosure".toList,
      subtype := "Password Storage".toList,
      description := "Password field with autocomplete enabled".toList } ]

/-- Line 96: all_patterns is the concatenation of the three databases. -/
def all_patterns : List PatternSpec :=
  xss_patterns ++ csrf_patterns ++ info_disclosure_patterns

/-! ### pattern_match (lines 98 to 135) -/

/-- The finding built for one regex match (lines 113 to 133): the match is a
(start, stop) index pair into the input. -/
def mkFinding (p : PatternSpec) (html : List Char) (m : Nat × Nat) : Finding :=
  let line_number := (html.take m.1).count '\n' + 1
  let lines := splitOnChar '\n' html
  let start_line := line_number - 3
  let end_line := min lines.length (line_number + 3)
  let context_lines := (lines.drop start_line).take (end_line - start_line)
  { type := some p.type,
    subtype := some p.subtype,
    cwe := some p.cwe,
    description := some p.description,
    line := some (LineVal.int (Int.ofNat line_number)),
    code := some ((html.drop m.1).take (m.2 - m.1)),
    context := some (List.intercalate ['\n'] context_lines),
    source := some "pattern_match".toList }

/-- Model of SecurityAnalyzer.pattern_match: loop over all_patterns, and for
each regex match append a finding.  It reads no other analyzer state. -/
def pattern_match (html : List Char) : List Finding :=
  all_patterns.foldl
    (fun fs p => (finditer p.regex html).foldl (fun fs' m => fs' ++ [mkFinding p html m]) fs)
    []

/-! ### llm_analyze (lines 137 to 253)

The reply text of the engine is parsed by pure string code, embedded below.
The generate call itself is an oracle: the environment carries the engine as
an optional function from the analyzed code to the reply text (the fixed
prompt template wrapped around the code at lines 150 to 211 is a constant
frame and affects no claim). -/

/-- The sentinel checked at line 219. -/
def noVulnTag : List Char := "NO_VULNERABILITIES_FOUND".toList

/-- The section separator of line 222. -/
def vulnSep : List Char := "VULNERABILITY ".toList

/-- The dictionary every parsed vulnerability starts from (line 229). -/
def emptyLLMFinding : Finding :=
  { source := some "llm_analysis".toList }

/-- One pass of the elif chain of lines 231 to 248 over one reply line. -/
def parseReplyLine (v : Finding) (line : List Char) : Finding :=
  if "Type:".toList.isPrefixOf line then
    { v with type := some (pyStrip (removeAll "Type:".toList line)) }
  else if "Subtype:".toList.isPrefixOf line then
    { v with subtype := some (pyStrip (removeAll "Subtype:".toList line)) }
  else if "CWE:".toList.isPrefixOf line then
    { v with cwe := some (pyStrip (removeAll "CWE:".toList line)) }
  else if "Code:".toList.isPrefixOf line then
    { v with code := some (pyStrip (removeAll "Code:".toList line)) }
  else if "Line:".toList.isPrefixOf line then
    let lv := match pyToInt (removeAll "Line:".toList line) with
      | some n => LineVal.int n
      | none => LineVal.str (pyStrip (removeAll "Line:".toList line))
    { v with line := some lv }
  else if "Description:".toList.isPrefixOf line then
    { v with description := some (pyStrip (removeAll "Description:".toList line)) }
  else if "Fix:".toList.isPrefixOf line then
    { v with fix := some (pyStrip (removeAll "Fix:".toList line)) }
  else v

/-- One VULNERABILITY section (lines 224 to 251): strip, split into lines,
fold the elif chain, keep the result only when both a type and a description
were seen. -/
def parseSection (s : List Char) : Option Finding :=
  let lines := splitOnChar '\n' (pyStrip s)
  if lines = [] then none
  else
    let v := lines.foldl parseReplyLine emptyLLMFinding
    if v.type.isSome ∧ v.description.isSome then some v else none

/-- Appending of one parsed section to the findings so far (the body of the
loop at lines 224 to 251). -/
def appendParsed (fs : List Finding) (s : List Char) : List Finding :=
  match parseSection s with
  | some v => fs ++ [v]
  | none => fs

/-- Parsing of one reply (lines 216 to 253). -/
def parseReply (analysis : List Char) : List Finding :=
  if containsSub noVulnTag analysis then []
  else (splitOnStr vulnSep analysis).tail.foldl appendParsed []

/-- The external world of one SecurityAnalyzer call:
llm_engine models self.llm_engine.generate applied to the prompt built from
the analyzed code (none models a missing engine); fetch models the body of
the try block of get_nvd_info (HTTP request plus JSON extraction, lines 264
to 322), returning the extracted examples or the raised exception message;
soup models the BeautifulSoup extraction of lines 362 to 372, returning the
form texts followed by the script texts, or the parse-error message. -/
structure Env where
  llm_engine : Option (List Char → List Char)
  fetch : List Char → Except (List Char) (List NvdExample)
  soup : List Char → Except (List Char) (List (List Char))

/-- Model of SecurityAnalyzer.llm_analyze: with no engine return the empty
list (lines 146 to 148), otherwise one generate round trip then parse. -/
def llm_analyze (env : Env) (html : List Char) : List Finding :=
  match env.llm_engine with
  | none => []
  | some gen => parseReply (gen html)

/-! ### get_nvd_info (lines 255 to 326) -/

/-- Model of SecurityAnalyzer.get_nvd_info: the try-block body is the fetch
oracle; on success the examples are returned under the requested CWE id, on
any exception the error message is recorded and examples is empty. -/
def get_nvd_info (fetch : List Char → Except (List Char) (List NvdExample))
    (cwe_id : List Char) : NvdInfo :=
  match fetch cwe_id with
  | .ok exs => { cwe_id := cwe_id, error := none, examples := exs }
  | .error e => { cwe_id := cwe_id, error := some e, examples := [] }

/-! ### The LLM step of analyze_html (lines 346 to 389) -/

/-- The fallback chunking of lines 377 to 379: slices of 4000 characters. -/
def fallbackChunks (html : List Char) : List (List Char) :=
  (List.range ((html.length + 3999) / 4000)).map
    (fun k => (html.drop (4000 * k)).take 4000)

/-- The chunk list for a large input: forms and scripts when BeautifulSoup
parses, otherwise the fallback slices (lines 358 to 379). -/
def llmChunks (env : Env) (html : List Char) : List (List Char) :=
  match env.soup html with
  | .ok cs => cs
  | .error _ => fallbackChunks html

/-- The LLM step of analyze_html, instrumented with the number of generate
calls it performs (each llm_analyze call with an engine present is exactly
one generate call, line 214).  Small inputs get one whole-input analysis;
large inputs get one analysis per chunk, each finding tagged with its chunk
index (lines 349 to 388). -/
def runLLMStep (env : Env) (html : List Char) : List Finding × Nat :=
  match env.llm_engine with
  | none => ([], 0)
  | some _ =>
    if html.length < 5000 then (llm_analyze env html, 1)
    else
      (llmChunks env html).enum.foldl
        (fun acc ic =>
          (acc.1 ++ (llm_analyze env ic.2).map (fun f => { f with chunk := some (ic.1 + 1) }),
           acc.2 + 1))
        ([], 0)

/-! ### Merge and deduplication (lines 391 to 415) -/

/-- Index of the first existing finding sharing type and code with the
incoming one (the inner loop of lines 402 to 412; dict.get of a missing key
is None, so two missing codes compare equal). -/
def findDupIdx (merged : List Finding) (lf : Finding) : Option Nat :=
  merged.findIdx? (fun e => e.type == lf.type && e.code == lf.code)

/-- Processing of one LLM finding (lines 399 to 415): a duplicate is dropped,
and when the duplicate of a pattern finding carries a fix, that fix is copied
onto the pattern finding; otherwise the finding is appended. -/
def mergeStep (merged : List Finding) (lf : Finding) : List Finding :=
  match findDupIdx merged lf with
  | none => merged ++ [lf]
  | some i =>
    match merged[i]? with
    | none => merged
    | some e =>
      if e.source = some "pattern_match".toList ∧ lf.fix.isSome then
        merged.set i { e with fix := lf.fix }
      else merged

/-- The merge of lines 392 to 415: pattern findings first, then each LLM
finding through the duplicate check. -/
def mergeFindings (patternFindings llmFindings : List Finding) : List Finding :=
  llmFindings.foldl mergeStep patternFindings

/-! ### NVD enrichment (lines 417 to 431) -/

/-- The cache probe of lines 425 to 426: the nvd_info of the first finding
that has one and whose cwe equals the looked-up id. -/
def findCached (l : List Finding) (c : List Char) : Option NvdInfo :=
  l.findSome? (fun g => match g.nvd_info with
    | some ni => if g.cwe = some c then some ni else none
    | none => none)

/-- Processing of the finding at index i (lines 419 to 431), instrumented
with the list of CWE ids passed to get_nvd_info so far. -/
def enrichStep (getNvd : List Char → NvdInfo)
    (acc : List Finding × List (List Char)) (i : Nat) : List Finding × List (List Char) :=
  let l := acc.1
  match l[i]? with
  | none => acc
  | some f =>
    match f.cwe with
    | none => acc
    | some c =>
      if pyIsDigit c then
        match findCached l c with
        | some ni => (l.set i { f with nvd_info := some ni }, acc.2)
        | none => (l.set i { f with nvd_info := some (getNvd c) }, acc.2 ++ [c])
      else acc

/-- The enrichment loop over the merged findings, in order, instrumented with
the get_nvd_info call list. -/
def enrichAll (getNvd : List Char → NvdInfo) (l : List Finding) :
    List Finding × List (List Char) :=
  (List.range l.length).foldl (enrichStep getNvd) (l, [])

/-! ### Severity sort and final result (lines 435 to 463) -/

/-- Lines 436 to 440: the score of the first NVD example, 0 otherwise. -/
def get_severity_score (f : Finding) : Rat :=
  match f.nvd_info with
  | none => 0
  | some info =>
    match info.examples with
    | [] => 0
    | e :: _ => e.score

/-- The summary block of lines 449 to 460 (the timing subdictionary tracks
wall-clock durations and is outside the model). -/
structure AnalysisSummary where
  total_findings : Nat
  pattern_findings : Nat
  llm_findings : Nat
  unique_findings : Nat
deriving DecidableEq, Repr

structure AnalysisResult where
  findings : List Finding
  summary : AnalysisSummary
deriving DecidableEq, Repr

/-- Model of SecurityAnalyzer.analyze_html: pattern matching, the LLM step,
merge, NVD enrichment, then a stable sort by descending severity score
(list.sort with a key and reverse set, line 442). -/
def analyze_html (env : Env) (html : List Char) : AnalysisResult :=
  let patternFindings := pattern_match html
  let llmFindings := (runLLMStep env html).1
  let merged := mergeFindings patternFindings llmFindings
  let enriched := (enrichAll (get_nvd_info env.fetch) merged).1
  let sorted := enriched.mergeSort
    (fun a b => get_severity_score b ≤ get_severity_score a)
  { findings := sorted,
    summary :=
      { total_findings := sorted.length,
        pattern_findings := patternFindings.length,
        llm_findings := llmFindings.length,
        unique_findings := sorted.length } }

/-! ### Supporting lemmas -/

theorem foldl_append_singleton {α β : Type} (f : α → β) :
    ∀ (l : List α) (acc : List β),
      l.foldl (fun a x => a ++ [f x]) acc = acc ++ l.map f := by
  intro l
  induction l with
  | nil => simp
  | cons x t ih => intro acc; simp [ih, List.append_assoc]

theorem foldl_append_flatten {α β : Type} (g : α → List β) :
    ∀ (l : List α) (acc : List β),
      l.foldl (fun a x => a ++ g x) acc = acc ++ (l.map g).flatten := by
  intro l
  induction l with
  | nil => simp
  | cons x t ih => intro acc; simp [ih, List.append_assoc]

theorem pattern_match_foldl (html : List Char) (ps : List PatternSpec) (acc : List Finding) :
    ps.foldl
      (fun fs p => (finditer p.regex html).foldl (fun fs' m => fs' ++ [mkFinding p html m]) fs)
      acc
      = acc ++ (ps.map (fun p => (finditer p.regex html).map (mkFinding p html))).flatten := by
  have h : (fun fs p => (finditer p.regex html).foldl
        (fun fs' m => fs' ++ [mkFinding p html m]) fs)
      = fun (fs : List Finding) (p : PatternSpec) =>
        fs ++ (finditer p.regex html).map (mkFinding p html) := by
    funext fs p
    exact foldl_append_singleton (mkFinding p html) (finditer p.regex html) fs
  rw [h]
  exact foldl_append_flatten _ ps acc

/-- pattern_match in closed form: one finding per match of each pattern. -/
theorem pattern_match_eq (html : List Char) :
    pattern_match html =
      (all_patterns.map (fun p => (finditer p.regex html).map (mkFinding p html))).flatten := by
  have h := pattern_match_foldl html all_patterns []
  rw [List.nil_append] at h
  exact h

theorem mem_pattern_match {html : List Char} {f : Finding} (hf : f ∈ pattern_match html) :
    ∃ p ∈ all_patterns, ∃ m ∈ finditer p.regex html, mkFinding p html m = f := by
  rw [pattern_match_eq] at hf
  rcases List.mem_flatten.mp hf with ⟨l, hl, hfl⟩
  rcases List.mem_map.mp hl with ⟨p, hp, rfl⟩
  rcases List.mem_map.mp hfl with ⟨m, hm, rfl⟩
  exact ⟨p, hp, m, hm, rfl⟩

theorem splitOnChar_ne_nil (sep : Char) (l : List Char) : splitOnChar sep l ≠ [] := by
  cases l with
  | nil => simp [splitOnChar]
  | cons c t =>
    simp only [splitOnChar]
    split
    · simp
    · split <;> simp

theorem splitOnChar_length (sep : Char) (l : List Char) :
    (splitOnChar sep l).length = l.count sep + 1 := by
  induction l with
  | nil => simp [splitOnChar]
  | cons c t ih =>
    simp only [splitOnChar]
    by_cases h : c = sep
    · simp [h, ih, List.count_cons]
    · simp only [if_neg h]
      cases hs : splitOnChar sep t with
      | nil => exact absurd hs (splitOnChar_ne_nil sep t)
      | cons x r =>
        rw [hs] at ih
        simp only [List.length_cons] at ih ⊢
        simp [List.count_cons, h, ih]

theorem intercalate_cons_eq {α : Type} [DecidableEq α] (s x : List α) (xs : List (List α)) :
    List.intercalate s (x :: xs) =
      x ++ if xs = [] then [] else s ++ List.intercalate s xs := by
  cases xs <;> simp [List.intercalate, List.intersperse]

theorem mem_intercalate_decomp {α : Type} [DecidableEq α] {x : List α} {L : List (List α)}
    (s : List α) (hx : x ∈ L) :
    ∃ pre post, List.intercalate s L = pre ++ x ++ post := by
  induction L with
  | nil => cases hx
  | cons y ys ih =>
    rcases List.mem_cons.mp hx with rfl | hmem
    · refine ⟨[], if ys = [] then [] else s ++ List.intercalate s ys, ?_⟩
      simp [intercalate_cons_eq]
    · rcases ih hmem with ⟨pre, post, hdec⟩
      have hys : ys ≠ [] := List.ne_nil_of_mem hmem
      refine ⟨y ++ s ++ pre, post, ?_⟩
      rw [intercalate_cons_eq, if_neg hys, hdec]
      simp [List.append_assoc]

theorem slice_getElem_mem {α : Type} {L : List α} {i a b : Nat}
    (ha : a ≤ i) (hb : i < b) (hL : i < L.length) :
    L[i] ∈ (L.drop a).take (b - a) := by
  have h1 : ((L.drop a).take (b - a))[i - a]? = some L[i] := by
    rw [List.getElem?_take, if_pos (by omega), List.getElem?_drop]
    have : a + (i - a) = i := by omega
    rw [this, List.getElem?_eq_getElem hL]
  rcases List.getElem?_eq_some.mp h1 with ⟨h2, h3⟩
  exact h3 ▸ List.getElem_mem h2

/-! ### Claim C3 -/

/-- C3: for every input string, pattern_match returns exactly the findings
obtained by evaluating the fixed list of eight regular expressions (four XSS,
one CSRF, three information-disclosure patterns) against that string with
case-insensitive, dot-matches-newline semantics: one finding per regex match,
carrying that pattern's fixed type, subtype, cwe and description, with no
dependence on any other analyzer state (pattern_match is a function of the
input string alone). -/
theorem C3_pattern_match_fixed_regexes (html : List Char) :
    pattern_match html =
      (all_patterns.map (fun p => (finditer p.regex html).map (mkFinding p html))).flatten
    ∧ all_patterns = xss_patterns ++ csrf_patterns ++ info_disclosure_patterns
    ∧ xss_patterns.length = 4
    ∧ csrf_patterns.length = 1
    ∧ info_disclosure_patterns.length = 3
    ∧ (∀ p m, (mkFinding p html m).type = some p.type
        ∧ (mkFinding p html m).subtype = some p.subtype
        ∧ (mkFinding p html m).cwe = some p.cwe
        ∧ (mkFinding p html m).description = some p.description
        ∧ (mkFinding p html m).source = some "pattern_match".toList)
    ∧ (∀ c, clsMatch CharCls.dot c = true)
    ∧ (∀ c x, clsMatch (CharCls.lit c) x = (x.toLower == c.toLower)) := by
  exact ⟨pattern_match_eq html, rfl, rfl, rfl, rfl,
    fun p m => ⟨rfl, rfl, rfl, rfl, rfl⟩, fun c => rfl, fun c x => rfl⟩

/-! ### Claim C8 -/

/-- C8: for every input string and every finding returned by pattern_match,
the line field equals 1 plus the number of newline characters preceding the
start of the regex match (lines are numbered from 1), and the context field
contains the line on which the match starts. -/
theorem C8_line_number_and_context (html : List Char) (f : Finding)
    (hf : f ∈ pattern_match html) :
    ∃ p ∈ all_patterns, ∃ m ∈ finditer p.regex html,
      mkFinding p html m = f
      ∧ f.line = some (LineVal.int (Int.ofNat ((html.take m.1).count '\n' + 1)))
      ∧ ∃ pre post, f.context =
          some (pre ++ (splitOnChar '\n' html).getD ((html.take m.1).count '\n') [] ++ post) := by
  rcases mem_pattern_match hf with ⟨p, hp, m, hm, rfl⟩
  refine ⟨p, hp, m, hm, rfl, rfl, ?_⟩
  have hlen := splitOnChar_length '\n' html
  have hcle : (html.take m.1).count '\n' ≤ html.count '\n' :=
    List.Sublist.count_le (List.take_sublist _ _) '\n'
  have hlt : (html.take m.1).count '\n' < (splitOnChar '\n' html).length := by omega
  have hmem2 : (splitOnChar '\n' html)[(html.take m.1).count '\n'] ∈
      ((splitOnChar '\n' html).drop ((html.take m.1).count '\n' + 1 - 3)).take
        (min (splitOnChar '\n' html).length ((html.take m.1).count '\n' + 1 + 3)
          - ((html.take m.1).count '\n' + 1 - 3)) :=
    slice_getElem_mem (by omega) (by omega) hlt
  rcases mem_intercalate_decomp ['\n'] hmem2 with ⟨pre, post, hdec⟩
  refine ⟨pre, post, ?_⟩
  have hgetD : (splitOnChar '\n' html).getD ((html.take m.1).count '\n') []
      = (splitOnChar '\n' html)[(html.take m.1).count '\n'] := by
    rw [List.getD_eq_getElem?_getD, List.getElem?_eq_getElem hlt]
    rfl
  rw [hgetD]
  show some (List.intercalate ['\n'] _) = _
  rw [hdec]

/-- Witness for C8 at a concrete input: the single finding reported on a
page holding one TODO comment. -/
theorem C8_line_number_and_context_witness :
    ∃ p ∈ all_patterns, ∃ m ∈ finditer p.regex "<!--TODO-->".toList,
      mkFinding p "<!--TODO-->".toList m = (pattern_match "<!--TODO-->".toList).headI
      ∧ (pattern_match "<!--TODO-->".toList).headI.line
          = some (LineVal.int (Int.ofNat ((("<!--TODO-->".toList).take m.1).count '\n' + 1)))
      ∧ ∃ pre post, (pattern_match "<!--TODO-->".toList).headI.context =
          some (pre ++ (splitOnChar '\n' "<!--TODO-->".toList).getD
            ((("<!--TODO-->".toList).take m.1).count '\n') [] ++ post) :=
  C8_line_number_and_context "<!--TODO-->".toList (pattern_match "<!--TODO-->".toList).headI
    (by decide)

/-! ### Generic list helpers -/

theorem set_getElem_self {α : Type} (l : List α) (i : Nat) (h : i < l.length) :
    l.set i l[i] = l := by
  apply List.ext_getElem?
  intro j
  by_cases hij : i = j
  · subst hij
    rw [List.getElem?_set_self h, List.getElem?_eq_getElem h]
  · rw [List.getElem?_set_ne hij]

theorem map_set_self_of_getElem? {α β : Type} (f : α → β) {l : List α} {i : Nat} {e : α}
    (hget : l[i]? = some e) (x : α) (hx : f x = f e) : (l.set i x).map f = l.map f := by
  obtain ⟨hlt, helem⟩ := List.getElem?_eq_some.mp hget
  rw [List.map_set, hx]
  have hlt2 : i < (l.map f).length := by simpa using hlt
  have hfe : f e = (l.map f)[i] := by
    rw [List.getElem_map]
    exact congrArg f helem.symm
  rw [hfe, set_getElem_self _ _ hlt2]

/-! ### The deduplication invariant (claim C1) -/

def llmSrcTag : List Char := "llm_analysis".toList

def patternSrcTag : List Char := "pattern_match".toList

/-- The fields the duplicate check compares, together with the source tag:
no step of analyze_html after finding construction changes them. -/
def projTCS (f : Finding) :
    Option (List Char) × Option (List Char) × Option (List Char) :=
  (f.type, f.code, f.source)

/-- The dedup property on projected fields: if either finding carries the
llm_analysis source, the two do not share both type and code. -/
def dedupQ (a b : Option (List Char) × Option (List Char) × Option (List Char)) : Prop :=
  (a.2.2 = some llmSrcTag ∨ b.2.2 = some llmSrcTag) → ¬(a.1 = b.1 ∧ a.2.1 = b.2.1)

def DedupRel (f g : Finding) : Prop :=
  dedupQ (projTCS f) (projTCS g)

theorem dedupRel_symm {f g : Finding} (h : DedupRel f g) : DedupRel g f :=
  fun hsrc hac => h (Or.symm hsrc) ⟨hac.1.symm, hac.2.symm⟩

theorem pairwise_dedup_of_map {l l' : List Finding}
    (hmap : l.map projTCS = l'.map projTCS) (h : l.Pairwise DedupRel) :
    l'.Pairwise DedupRel := by
  have h0 : List.Pairwise (fun a b => dedupQ (projTCS a) (projTCS b)) l := h
  have h1 : List.Pairwise dedupQ (l.map projTCS) := List.pairwise_map.mpr h0
  rw [hmap] at h1
  have h2 : List.Pairwise (fun a b => dedupQ (projTCS a) (projTCS b)) l' :=
    List.pairwise_map.mp h1
  exact h2

theorem pairwise_dedup_of_sources (l : List Finding)
    (h : ∀ f ∈ l, f.source = some patternSrcTag) : l.Pairwise DedupRel := by
  induction l with
  | nil => exact List.Pairwise.nil
  | cons f t ih =>
    refine List.Pairwise.cons ?_ (ih (fun g hg => h g (List.mem_cons_of_mem f hg)))
    intro g hg hsrc
    exfalso
    have hf : f.source = some patternSrcTag := h f (List.mem_cons_self f t)
    have hgs : g.source = some patternSrcTag := h g (List.mem_cons_of_mem f hg)
    have hne : patternSrcTag ≠ llmSrcTag := by decide
    simp only [projTCS] at hsrc
    rcases hsrc with h1 | h1
    · rw [hf] at h1
      exact hne (Option.some_injective _ h1)
    · rw [hgs] at h1
      exact hne (Option.some_injective _ h1)

theorem pattern_match_source {html : List Char} {f : Finding}
    (hf : f ∈ pattern_match html) : f.source = some patternSrcTag := by
  rcases mem_pattern_match hf with ⟨p, _, m, _, rfl⟩
  rfl

theorem mergeStep_pairwise {merged : List Finding} (lf : Finding)
    (h : merged.Pairwise DedupRel) : (mergeStep merged lf).Pairwise DedupRel := by
  cases hidx : findDupIdx merged lf with
  | none =>
    have hstep : mergeStep merged lf = merged ++ [lf] := by
      simp [mergeStep, hidx]
    rw [hstep, List.pairwise_append]
    refine ⟨h, List.pairwise_singleton _ _, ?_⟩
    intro a ha b hb
    rw [List.mem_singleton] at hb
    subst hb
    have hall := List.findIdx?_eq_none_iff.mp hidx a ha
    intro _ hac
    simp only [projTCS] at hac
    rcases hac with ⟨h1, h2⟩
    rw [h1, h2] at hall
    simp at hall
  | some i =>
    cases hget : merged[i]? with
    | none =>
      have hstep : mergeStep merged lf = merged := by
        simp [mergeStep, hidx, hget]
      rw [hstep]
      exact h
    | some e =>
      by_cases hcond : e.source = some "pattern_match".toList ∧ lf.fix.isSome
      · have hstep : mergeStep merged lf = merged.set i { e with fix := lf.fix } := by
          simp only [mergeStep, hidx, hget]
          rw [if_pos hcond]
        rw [hstep]
        exact pairwise_dedup_of_map
          (map_set_self_of_getElem? projTCS hget ({ e with fix := lf.fix }) rfl).symm h
      · have hstep : mergeStep merged lf = merged := by
          simp only [mergeStep, hidx, hget]
          rw [if_neg hcond]
        rw [hstep]
        exact h

theorem mergeFindings_pairwise (lf : List Finding) :
    ∀ (acc : List Finding), acc.Pairwise DedupRel →
      (mergeFindings acc lf).Pairwise DedupRel := by
  induction lf with
  | nil => intro acc h; exact h
  | cons x t ih =>
    intro acc h
    exact ih (mergeStep acc x) (mergeStep_pairwise x h)

/-! ### Enrichment preserves all fields but nvd_info -/

/-- A finding with its nvd_info removed: the enrichment step changes nothing
else. -/
def eraseNvd (f : Finding) : Finding := { f with nvd_info := none }

theorem enrichStep_map_eraseNvd (g : List Char → NvdInfo)
    (acc : List Finding × List (List Char)) (i : Nat) :
    ((enrichStep g acc i).1).map eraseNvd = acc.1.map eraseNvd := by
  cases hget : acc.1[i]? with
  | none =>
    have hstep : enrichStep g acc i = acc := by simp [enrichStep, hget]
    rw [hstep]
  | some f =>
    cases hcwe : f.cwe with
    | none =>
      have hstep : enrichStep g acc i = acc := by simp [enrichStep, hget, hcwe]
      rw [hstep]
    | some c =>
      by_cases hd : pyIsDigit c
      · cases hc : findCached acc.1 c with
        | some ni =>
          have hstep : (enrichStep g acc i).1 = acc.1.set i { f with nvd_info := some ni } := by
            simp [enrichStep, hget, hcwe, hd, hc]
          rw [hstep]
          exact map_set_self_of_getElem? eraseNvd hget ({ f with nvd_info := some ni }) rfl
        | none =>
          have hstep : (enrichStep g acc i).1
              = acc.1.set i { f with nvd_info := some (g c) } := by
            simp [enrichStep, hget, hcwe, hd, hc]
          rw [hstep]
          exact map_set_self_of_getElem? eraseNvd hget
            ({ f with nvd_info := some (g c) }) rfl
      · have hstep : enrichStep g acc i = acc := by simp [enrichStep, hget, hcwe, hd]
        rw [hstep]

theorem enrichGo_map_eraseNvd (g : List Char → NvdInfo) :
    ∀ (idxs : List Nat) (acc : List Finding × List (List Char)),
      ((idxs.foldl (enrichStep g) acc).1).map eraseNvd = acc.1.map eraseNvd := by
  intro idxs
  induction idxs with
  | nil => intro acc; rfl
  | cons j t ih =>
    intro acc
    rw [List.foldl_cons, ih (enrichStep g acc j), enrichStep_map_eraseNvd]

theorem enrichAll_map_eraseNvd (g : List Char → NvdInfo) (l : List Finding) :
    ((enrichAll g l).1).map eraseNvd = l.map eraseNvd :=
  enrichGo_map_eraseNvd g (List.range l.length) (l, [])

theorem map_projTCS_of_map_eraseNvd {l l' : List Finding}
    (h : l.map eraseNvd = l'.map eraseNvd) : l.map projTCS = l'.map projTCS := by
  have hcomp : projTCS ∘ eraseNvd = projTCS := funext (fun _ => rfl)
  calc l.map projTCS = (l.map eraseNvd).map projTCS := by rw [List.map_map, hcomp]
    _ = (l'.map eraseNvd).map projTCS := by rw [h]
    _ = l'.map projTCS := by rw [List.map_map, hcomp]

/-! ### Claim C1 -/

/-- C1: for every HTML input, in the findings list returned by analyze_html
no finding with source llm_analysis shares its (type, code) pair with any
other finding: the merge appends an LLM finding only when no finding already
in the merged list matches on both fields, and no later step changes type,
code or source. -/
theorem C1_llm_findings_deduplicated (env : Env) (html : List Char) :
    (analyze_html env html).findings.Pairwise
      (fun f g =>
        (f.source = some "llm_analysis".toList ∨ g.source = some "llm_analysis".toList) →
          ¬(f.type = g.type ∧ f.code = g.code)) := by
  have hpat : (pattern_match html).Pairwise DedupRel :=
    pairwise_dedup_of_sources _ (fun f hf => pattern_match_source hf)
  have hmerge :
      (mergeFindings (pattern_match html) (runLLMStep env html).1).Pairwise DedupRel :=
    mergeFindings_pairwise _ _ hpat
  have henrich :
      ((enrichAll (get_nvd_info env.fetch)
        (mergeFindings (pattern_match html) (runLLMStep env html).1)).1).Pairwise DedupRel :=
    pairwise_dedup_of_map
      (map_projTCS_of_map_eraseNvd (enrichAll_map_eraseNvd _ _).symm) hmerge
  have hsort := henrich.perm
    (List.mergeSort_perm _
      (fun a b => get_severity_score b ≤ get_severity_score a)).symm
    (fun h => dedupRel_symm h)
  exact hsort

/-! ### Reply parsing lemmas -/

theorem foldl_appendParsed :
    ∀ (l : List (List Char)) (acc : List Finding),
      l.foldl appendParsed acc = acc ++ l.filterMap parseSection := by
  intro l
  induction l with
  | nil => simp
  | cons x t ih =>
    intro acc
    rw [List.foldl_cons, List.filterMap_cons]
    cases hx : parseSection x with
    | none => simp only [appendParsed, hx, ih]
    | some v => simp only [appendParsed, hx, ih, List.append_assoc, List.singleton_append]

/-- parseReply in closed form. -/
theorem parseReply_eq (analysis : List Char) :
    parseReply analysis =
      if containsSub noVulnTag analysis = true then []
      else ((splitOnStr vulnSep analysis).tail).filterMap parseSection := by
  by_cases hc : containsSub noVulnTag analysis = true
  · rw [if_pos hc]
    simp [parseReply, hc]
  · rw [if_neg hc]
    simp only [parseReply, hc, Bool.false_eq_true, if_false]
    exact (foldl_appendParsed ((splitOnStr vulnSep analysis).tail) []).trans
      (List.nil_append _)

theorem parseSection_fields {s : List Char} {f : Finding} (h : parseSection s = some f) :
    f.type.isSome ∧ f.description.isSome := by
  simp only [parseSection] at h
  rw [if_neg (splitOnChar_ne_nil '\n' (pyStrip s))] at h
  by_cases hcond :
      ((splitOnChar '\n' (pyStrip s)).foldl parseReplyLine emptyLLMFinding).type.isSome = true
      ∧ ((splitOnChar '\n' (pyStrip s)).foldl
          parseReplyLine emptyLLMFinding).description.isSome = true
  · rw [if_pos hcond] at h
    cases h
    exact hcond
  · rw [if_neg hcond] at h
    cases h

theorem parseReplyLine_nvd (v : Finding) (line : List Char) :
    (parseReplyLine v line).nvd_info = v.nvd_info := by
  unfold parseReplyLine
  repeat' split
  all_goals rfl

theorem foldl_parseReplyLine_nvd (lines : List (List Char)) :
    ∀ v : Finding, (lines.foldl parseReplyLine v).nvd_info = v.nvd_info := by
  induction lines with
  | nil => intro v; rfl
  | cons x t ih =>
    intro v
    rw [List.foldl_cons, ih, parseReplyLine_nvd]

theorem parseSection_nvd {s : List Char} {f : Finding} (h : parseSection s = some f) :
    f.nvd_info = none := by
  simp only [parseSection] at h
  rw [if_neg (splitOnChar_ne_nil '\n' (pyStrip s))] at h
  by_cases hcond :
      ((splitOnChar '\n' (pyStrip s)).foldl parseReplyLine emptyLLMFinding).type.isSome = true
      ∧ ((splitOnChar '\n' (pyStrip s)).foldl
          parseReplyLine emptyLLMFinding).description.isSome = true
  · rw [if_pos hcond] at h
    cases h
    rw [foldl_parseReplyLine_nvd]
    rfl
  · rw [if_neg hcond] at h
    cases h

theorem parseReply_nvd {s : List Char} {f : Finding} (hf : f ∈ parseReply s) :
    f.nvd_info = none := by
  rw [parseReply_eq] at hf
  by_cases hc : containsSub noVulnTag s = true
  · rw [if_pos hc] at hf
    cases hf
  · rw [if_neg hc] at hf
    rcases List.mem_filterMap.mp hf with ⟨x, _, hx⟩
    exact parseSection_nvd hx

theorem llm_analyze_nvd {env : Env} {html : List Char} {f : Finding}
    (hf : f ∈ llm_analyze env html) : f.nvd_info = none := by
  revert hf
  unfold llm_analyze
  cases env.llm_engine with
  | none => intro hf; cases hf
  | some gen => exact fun hf => parseReply_nvd hf

theorem runLLMStep_chunk_foldl_nvd (env : Env) :
    ∀ (l : List (Nat × List Char)) (acc : List Finding × Nat),
      (∀ f ∈ acc.1, f.nvd_info = none) →
      ∀ f ∈ (l.foldl (fun acc ic =>
          (acc.1 ++ (llm_analyze env ic.2).map (fun f => { f with chunk := some (ic.1 + 1) }),
           acc.2 + 1)) acc).1, f.nvd_info = none := by
  intro l
  induction l with
  | nil => intro acc h; exact h
  | cons x t ih =>
    intro acc h
    refine ih _ ?_
    intro f hf
    rcases List.mem_append.mp hf with hf1 | hf2
    · exact h f hf1
    · rcases List.mem_map.mp hf2 with ⟨f0, hf0, rfl⟩
      have hn := llm_analyze_nvd hf0
      exact hn

theorem runLLMStep_nvd {env : Env} {html : List Char} {f : Finding}
    (hf : f ∈ (runLLMStep env html).1) : f.nvd_info = none := by
  revert hf
  unfold runLLMStep
  cases env.llm_engine with
  | none => intro hf; cases hf
  | some gen =>
    by_cases hlen : html.length < 5000
    · rw [if_pos hlen]
      exact fun hf => llm_analyze_nvd hf
    · rw [if_neg hlen]
      exact fun hf => runLLMStep_chunk_foldl_nvd env _ ([], 0) (by intro f h; cases h) f hf

theorem pattern_match_nvd {html : List Char} {f : Finding}
    (hf : f ∈ pattern_match html) : f.nvd_info = none := by
  rcases mem_pattern_match hf with ⟨p, _, m, _, rfl⟩
  rfl

/-- The three possible outcomes of one merge step. -/
theorem mergeStep_shape (merged : List Finding) (lf : Finding) :
    mergeStep merged lf = merged ++ [lf]
    ∨ mergeStep merged lf = merged
    ∨ ∃ i e, merged[i]? = some e ∧ lf.fix.isSome = true
        ∧ mergeStep merged lf = merged.set i { e with fix := lf.fix } := by
  cases hidx : findDupIdx merged lf with
  | none =>
    left
    simp [mergeStep, hidx]
  | some i =>
    cases hget : merged[i]? with
    | none =>
      right; left
      simp [mergeStep, hidx, hget]
    | some e =>
      by_cases hcond : e.source = some "pattern_match".toList ∧ lf.fix.isSome
      · right; right
        refine ⟨i, e, hget, hcond.2, ?_⟩
        simp only [mergeStep, hidx, hget]
        rw [if_pos hcond]
      · right; left
        simp only [mergeStep, hidx, hget]
        rw [if_neg hcond]

theorem mergeFindings_nvd (lfl : List Finding) :
    ∀ (acc : List Finding), (∀ f ∈ acc, f.nvd_info = none) →
      (∀ f ∈ lfl, f.nvd_info = none) →
      ∀ f ∈ mergeFindings acc lfl, f.nvd_info = none := by
  induction lfl with
  | nil => intro acc hacc _ f hf; exact hacc f hf
  | cons x t ih =>
    intro acc hacc hlfl
    refine ih _ ?_ (fun f hf => hlfl f (List.mem_cons_of_mem x hf))
    intro f hf
    rcases mergeStep_shape acc x with hs | hs | ⟨i, e, hget, _, hs⟩
    · rw [hs] at hf
      rcases List.mem_append.mp hf with h1 | h2
      · exact hacc f h1
      · rw [List.mem_singleton] at h2
        subst h2
        exact hlfl f (List.mem_cons_self f t)
    · rw [hs] at hf
      exact hacc f hf
    · rw [hs] at hf
      rcases List.mem_or_eq_of_mem_set hf with h1 | h2
      · exact hacc f h1
      · subst h2
        obtain ⟨hlt, helem⟩ := List.getElem?_eq_some.mp hget
        have : e ∈ acc := helem ▸ List.getElem_mem hlt
        exact hacc e this

/-! ### Claim C7 -/

/-- C7: reply parsing is best effort: a reply containing the sentinel
NO_VULNERABILITIES_FOUND anywhere parses to the empty list even when it also
lists vulnerabilities, and otherwise every returned finding comes from one
VULNERABILITY-delimited section and carries both a type and a description
(sections lacking either are dropped by parseSection). -/
theorem C7_reply_parsing_best_effort (analysis : List Char) :
    (containsSub noVulnTag analysis = true → parseReply analysis = [])
    ∧ ∀ f ∈ parseReply analysis,
        (∃ s ∈ (splitOnStr vulnSep analysis).tail, parseSection s = some f)
        ∧ f.type.isSome ∧ f.description.isSome := by
  constructor
  · intro hc
    rw [parseReply_eq, if_pos hc]
  · intro f hf
    rw [parseReply_eq] at hf
    by_cases hc : containsSub noVulnTag analysis = true
    · rw [if_pos hc] at hf
      cases hf
    · rw [if_neg hc] at hf
      rcases List.mem_filterMap.mp hf with ⟨s, hs, hps⟩
      exact ⟨⟨s, hs, hps⟩, parseSection_fields hps⟩

/-! ### Claim C5 -/

/-- C5: failures are handled by returning empty results only: when the NVD
fetch raises, get_nvd_info returns the requested cwe_id, the error message
and an empty examples list rather than propagating; and llm_analyze with no
engine configured returns the empty list. -/
theorem C5_failure_empty_results :
    (∀ (fetch : List Char → Except (List Char) (List NvdExample)) (cwe e : List Char),
      fetch cwe = .error e →
        get_nvd_info fetch cwe = { cwe_id := cwe, error := some e, examples := [] })
    ∧ ∀ (env : Env) (html : List Char), env.llm_engine = none → llm_analyze env html = [] := by
  constructor
  · intro fetch cwe e hf
    simp [get_nvd_info, hf]
  · intro env html he
    simp [llm_analyze, he]

/-- An environment with no engine and a fetch that always raises, for
concrete evaluations. -/
def envOffline : Env where
  llm_engine := none
  fetch := fun _ => Except.error "boom".toList
  soup := fun _ => Except.ok []

/-- Witness for C5 at concrete inputs: a fetch that always raises, and an
environment with no engine. -/
theorem C5_failure_empty_results_witness :
    get_nvd_info envOffline.fetch "79".toList
      = { cwe_id := "79".toList, error := some "boom".toList, examples := [] }
    ∧ llm_analyze envOffline "<p></p>".toList = [] :=
  ⟨C5_failure_empty_results.1 envOffline.fetch "79".toList "boom".toList rfl,
   C5_failure_empty_results.2 envOffline "<p></p>".toList rfl⟩

/-! ### Claim C4 -/

/-- An environment whose engine always reports no vulnerabilities and whose
HTML parse finds no forms and no scripts. -/
def envNoChunks : Env where
  llm_engine := some (fun _ => noVulnTag)
  fetch := fun _ => Except.error "offline".toList
  soup := fun _ => Except.ok []

/-- A 5000-character input, at the threshold where analyze_html switches to
chunked analysis. -/
def bigHtml : List Char := List.replicate 5000 'a'

/-- C4 counterexample: with an engine present and a 5000-character input
whose parse yields no form and no script chunks, the LLM step of
analyze_html calls generate zero times, not exactly once. -/
theorem C4_counterexample :
    envNoChunks.llm_engine.isSome = true
    ∧ (runLLMStep envNoChunks bigHtml).2 ≠ 1 := by
  constructor
  · rfl
  · have hlen : bigHtml.length = 5000 := by
      unfold bigHtml
      rw [List.length_replicate]
    have hchunks : llmChunks envNoChunks bigHtml = [] := rfl
    have he : envNoChunks.llm_engine = some (fun _ => noVulnTag) := rfl
    have hnlt : ¬(bigHtml.length < 5000) := by
      rw [hlen]
      omega
    simp only [runLLMStep, he, hnlt, if_false, hchunks]
    decide

theorem runLLM_chunk_foldl_count (env : Env) :
    ∀ (l : List (Nat × List Char)) (acc : List Finding × Nat),
      (l.foldl (fun acc ic =>
        (acc.1 ++ (llm_analyze env ic.2).map (fun f => { f with chunk := some (ic.1 + 1) }),
         acc.2 + 1)) acc).2 = acc.2 + l.length := by
  intro l
  induction l with
  | nil => intro acc; simp
  | cons x t ih =>
    intro acc
    rw [List.foldl_cons, ih]
    simp only [List.length_cons]
    omega

/-- C4 amended: with an engine present, generate is called exactly once when
the input is shorter than 5000 characters; for larger inputs it is called
once per extracted chunk, which can be zero or several times. -/
theorem C4_generate_calls_amended (env : Env) (html : List Char)
    (h : env.llm_engine.isSome = true) :
    (runLLMStep env html).2 =
      if html.length < 5000 then 1 else (llmChunks env html).length := by
  obtain ⟨gen, hg⟩ := Option.isSome_iff_exists.mp h
  by_cases hlen : html.length < 5000
  · rw [if_pos hlen]
    simp [runLLMStep, hg, hlen]
  · rw [if_neg hlen]
    simp only [runLLMStep, hg]
    rw [if_neg hlen]
    rw [runLLM_chunk_foldl_count env _ ([], 0)]
    simp [List.enum_length]

/-- Witness for the amended C4 at a concrete input: a short page gets exactly
one generate call. -/
theorem C4_generate_calls_amended_witness :
    (runLLMStep envNoChunks "<p>hi</p>".toList).2 =
      if ("<p>hi</p>".toList).length < 5000 then 1
      else (llmChunks envNoChunks "<p>hi</p>".toList).length :=
  C4_generate_calls_amended envNoChunks "<p>hi</p>".toList rfl

/-! ### Claim C2 -/

/-- C2: the findings list returned by analyze_html is sorted in
non-increasing order of severity score, the score of a finding being the
score of the first entry of its nvd_info examples and 0 when there is no
nvd_info or no example. -/
theorem C2_findings_sorted_by_severity (env : Env) (html : List Char) :
    (analyze_html env html).findings.Pairwise
      (fun a b => get_severity_score b ≤ get_severity_score a) := by
  have htrans : ∀ a b c : Finding,
      (fun a b : Finding => decide (get_severity_score b ≤ get_severity_score a)) a b = true →
      (fun a b : Finding => decide (get_severity_score b ≤ get_severity_score a)) b c = true →
      (fun a b : Finding => decide (get_severity_score b ≤ get_severity_score a)) a c = true := by
    intro a b c hab hbc
    simp only [decide_eq_true_eq] at hab hbc ⊢
    exact le_trans hbc hab
  have htotal : ∀ a b : Finding,
      ((fun a b : Finding => decide (get_severity_score b ≤ get_severity_score a)) a b
        || (fun a b : Finding => decide (get_severity_score b ≤ get_severity_score a)) b a)
        = true := by
    intro a b
    simp only [decide_eq_true_eq, Bool.or_eq_true]
    exact le_total _ _
  have h := List.sorted_mergeSort htrans htotal
    ((enrichAll (get_nvd_info env.fetch)
      (mergeFindings (pattern_match html) (runLLMStep env html).1)).1)
  refine List.Pairwise.imp ?_ h
  intro a b hab
  exact of_decide_eq_true hab

/-! ### Claim C9 -/

theorem mergeStep_length (merged : List Finding) (lf : Finding) :
    (mergeStep merged lf).length ≤ merged.length + 1 := by
  rcases mergeStep_shape merged lf with hs | hs | ⟨i, e, _, _, hs⟩
  · rw [hs]
    simp
  · rw [hs]
    omega
  · rw [hs]
    simp

theorem mergeFindings_length (lfl : List Finding) :
    ∀ acc : List Finding, (mergeFindings acc lfl).length ≤ acc.length + lfl.length := by
  induction lfl with
  | nil => intro acc; simp [mergeFindings]
  | cons x t ih =>
    intro acc
    have h1 : mergeFindings acc (x :: t) = mergeFindings (mergeStep acc x) t := rfl
    rw [h1]
    have h2 := ih (mergeStep acc x)
    have h3 := mergeStep_length acc x
    simp only [List.length_cons]
    omega

theorem enrichAll_length (g : List Char → NvdInfo) (l : List Finding) :
    ((enrichAll g l).1).length = l.length := by
  have h := congrArg List.length (enrichAll_map_eraseNvd g l)
  simpa using h

/-- C9: the summary returned by analyze_html is consistent with its findings
list: total_findings and unique_findings both equal the length of the
returned findings list, pattern_findings and llm_findings count the findings
of the two analysis steps, and total_findings is at most pattern_findings
plus llm_findings. -/
theorem C9_summary_consistent (env : Env) (html : List Char) :
    (analyze_html env html).summary.total_findings = (analyze_html env html).findings.length
    ∧ (analyze_html env html).summary.unique_findings = (analyze_html env html).findings.length
    ∧ (analyze_html env html).summary.pattern_findings = (pattern_match html).length
    ∧ (analyze_html env html).summary.llm_findings = (runLLMStep env html).1.length
    ∧ (analyze_html env html).summary.total_findings ≤
        (analyze_html env html).summary.pattern_findings
          + (analyze_html env html).summary.llm_findings := by
  refine ⟨rfl, rfl, rfl, rfl, ?_⟩
  show (((enrichAll (get_nvd_info env.fetch)
      (mergeFindings (pattern_match html) (runLLMStep env html).1)).1).mergeSort
        (fun a b => get_severity_score b ≤ get_severity_score a)).length
    ≤ (pattern_match html).length + (runLLMStep env html).1.length
  rw [List.length_mergeSort, enrichAll_length]
  exact mergeFindings_length _ _

/-! ### Enrichment, index by index -/

/-- Whether the enrichment condition of line 421 holds for a finding: a cwe
key is present and all digits. -/
def cweDigit (f : Finding) : Bool :=
  match f.cwe with
  | some c => pyIsDigit c
  | none => false

/-- The possible outcomes of one enrichment step. -/
theorem enrichStep_shape (g : List Char → NvdInfo)
    (acc : List Finding × List (List Char)) (i : Nat) :
    enrichStep g acc i = acc
    ∨ ∃ f c ni, acc.1[i]? = some f ∧ f.cwe = some c ∧ pyIsDigit c = true
        ∧ (enrichStep g acc i).1 = acc.1.set i { f with nvd_info := some ni }
        ∧ ((findCached acc.1 c = some ni ∧ (enrichStep g acc i).2 = acc.2)
           ∨ (findCached acc.1 c = none ∧ ni = g c
              ∧ (enrichStep g acc i).2 = acc.2 ++ [c])) := by
  cases hget : acc.1[i]? with
  | none =>
    left
    simp [enrichStep, hget]
  | some f =>
    cases hcwe : f.cwe with
    | none =>
      left
      simp [enrichStep, hget, hcwe]
    | some c =>
      by_cases hd : pyIsDigit c
      · cases hc : findCached acc.1 c with
        | some ni =>
          right
          refine ⟨f, c, ni, rfl, hcwe, hd, ?_, Or.inl ⟨hc, ?_⟩⟩
          · simp [enrichStep, hget, hcwe, hd, hc]
          · simp [enrichStep, hget, hcwe, hd, hc]
        | none =>
          right
          refine ⟨f, c, g c, rfl, hcwe, hd, ?_, Or.inr ⟨hc, rfl, ?_⟩⟩
          · simp [enrichStep, hget, hcwe, hd, hc]
          · simp [enrichStep, hget, hcwe, hd, hc]
      · left
        simp [enrichStep, hget, hcwe, hd]

theorem enrichGo_getElem?_not_mem (g : List Char → NvdInfo) :
    ∀ (idxs : List Nat) (acc : List Finding × List (List Char)) (i : Nat), i ∉ idxs →
      ((idxs.foldl (enrichStep g) acc).1)[i]? = acc.1[i]? := by
  intro idxs
  induction idxs with
  | nil => intro acc i _; rfl
  | cons j t ih =>
    intro acc i hi
    have hij : i ≠ j := fun h => hi (h ▸ List.mem_cons_self j t)
    have hit : i ∉ t := fun h => hi (List.mem_cons_of_mem j h)
    rw [List.foldl_cons, ih _ _ hit]
    rcases enrichStep_shape g acc j with hs | ⟨f, c, ni, _, _, _, hs1, _⟩
    · rw [hs]
    · rw [hs1, List.getElem?_set_ne (Ne.symm hij)]

theorem range_decomp (i n : Nat) (h : i < n) :
    List.range n = List.range i ++ [i] ++ (List.range (n - i - 1)).map (fun j => i + (1 + j)) := by
  have h1 : n = i + (1 + (n - i - 1)) := by omega
  calc List.range n = List.range (i + (1 + (n - i - 1))) := by rw [← h1]
    _ = List.range i ++ (List.range (1 + (n - i - 1))).map (fun x => i + x) := by
        rw [List.range_add]
    _ = List.range i ++ (List.range 1 ++ (List.range (n - i - 1)).map
          (fun x => 1 + x)).map (fun x => i + x) := by
        rw [List.range_add]
    _ = List.range i ++ [i] ++ (List.range (n - i - 1)).map (fun j => i + (1 + j)) := by
        have hr1 : List.range 1 = [0] := rfl
        rw [hr1, List.map_append, List.map_map]
        simp only [List.map_cons, List.map_nil, Function.comp, Nat.add_zero, List.append_assoc]
        refine congrArg _ (congrArg _ (List.map_congr_left ?_))
        intro a _
        simp only [Function.comp_apply]

/-- What enrichment leaves at index i: a finding without a digit-only cwe is
untouched, one with a digit-only cwe gains some nvd_info and changes in no
other way. -/
theorem enrichAll_getElem?_spec (g : List Char → NvdInfo) (l : List Finding) (i : Nat)
    (f : Finding) (hget : l[i]? = some f) :
    (cweDigit f = false → ((enrichAll g l).1)[i]? = some f)
    ∧ (cweDigit f = true → ∃ ni, ((enrichAll g l).1)[i]? = some { f with nvd_info := some ni }) := by
  have hlt : i < l.length := (List.getElem?_eq_some.mp hget).1
  have hdecomp := range_decomp i l.length hlt
  have hfold : (enrichAll g l).1
      = (((List.range (l.length - i - 1)).map (fun j => i + (1 + j))).foldl (enrichStep g)
          (enrichStep g ((List.range i).foldl (enrichStep g) (l, [])) i)).1 := by
    show ((List.range l.length).foldl (enrichStep g) (l, [])).1 = _
    rw [hdecomp, List.foldl_append, List.foldl_append]
    rfl
  have hacc1 : ((List.range i).foldl (enrichStep g) (l, [])).1[i]? = some f := by
    rw [enrichGo_getElem?_not_mem g _ _ i (by simp [List.mem_range])]
    exact hget
  have htail : i ∉ (List.range (l.length - i - 1)).map (fun j => i + (1 + j)) := by
    intro hmem
    rcases List.mem_map.mp hmem with ⟨j, _, hj⟩
    omega
  have hfinal : ((enrichAll g l).1)[i]?
      = ((enrichStep g ((List.range i).foldl (enrichStep g) (l, [])) i).1)[i]? := by
    rw [hfold]
    exact enrichGo_getElem?_not_mem g _ _ i htail
  have hlt1 : i < ((List.range i).foldl (enrichStep g) (l, [])).1.length :=
    (List.getElem?_eq_some.mp hacc1).1
  constructor
  · intro hcd
    rw [hfinal]
    cases hcwe : f.cwe with
    | none =>
      have hs : enrichStep g ((List.range i).foldl (enrichStep g) (l, [])) i
          = (List.range i).foldl (enrichStep g) (l, []) := by
        simp [enrichStep, hacc1, hcwe]
      rw [hs]
      exact hacc1
    | some c =>
      have hd : pyIsDigit c = false := by
        simpa [cweDigit, hcwe] using hcd
      have hs : enrichStep g ((List.range i).foldl (enrichStep g) (l, [])) i
          = (List.range i).foldl (enrichStep g) (l, []) := by
        simp [enrichStep, hacc1, hcwe, hd]
      rw [hs]
      exact hacc1
  · intro hcd
    rw [hfinal]
    cases hcwe : f.cwe with
    | none => simp [cweDigit, hcwe] at hcd
    | some c =>
      have hd : pyIsDigit c = true := by
        simpa [cweDigit, hcwe] using hcd
      cases hc : findCached ((List.range i).foldl (enrichStep g) (l, [])).1 c with
      | some ni =>
        refine ⟨ni, ?_⟩
        have hs : (enrichStep g ((List.range i).foldl (enrichStep g) (l, [])) i).1
            = ((List.range i).foldl (enrichStep g) (l, [])).1.set i
                { f with nvd_info := some ni } := by
          simp [enrichStep, hacc1, hcwe, hd, hc]
        rw [hs, List.getElem?_set_self hlt1, hcwe]
      | none =>
        refine ⟨g c, ?_⟩
        have hs : (enrichStep g ((List.range i).foldl (enrichStep g) (l, [])) i).1
            = ((List.range i).foldl (enrichStep g) (l, [])).1.set i
                { f with nvd_info := some (g c) } := by
          simp [enrichStep, hacc1, hcwe, hd, hc]
        rw [hs, List.getElem?_set_self hlt1, hcwe]

/-- The merge leaves each pattern finding in place, possibly giving it the
fix of a duplicate LLM finding. -/
theorem mergeFindings_getElem?_prefix (lfl : List Finding) :
    ∀ (acc pf : List Finding),
      (∀ (i : Nat) (p : Finding), pf[i]? = some p →
        acc[i]? = some p ∨ ∃ fx, acc[i]? = some { p with fix := some fx }) →
      ∀ (i : Nat) (p : Finding), pf[i]? = some p →
        (mergeFindings acc lfl)[i]? = some p
        ∨ ∃ fx, (mergeFindings acc lfl)[i]? = some { p with fix := some fx } := by
  induction lfl with
  | nil => intro acc pf hinv i p hp; exact hinv i p hp
  | cons x t ih =>
    intro acc pf hinv i p hp
    refine ih (mergeStep acc x) pf ?_ i p hp
    intro i p hp
    have hb : i < acc.length := by
      rcases hinv i p hp with hc | ⟨fx, hc⟩ <;> exact (List.getElem?_eq_some.mp hc).1
    rcases mergeStep_shape acc x with hs | hs | ⟨j, e, hgetj, hfixsome, hs⟩
    · rw [hs, List.getElem?_append_left hb]
      exact hinv i p hp
    · rw [hs]
      exact hinv i p hp
    · by_cases hji : j = i
      · subst hji
        obtain ⟨fxv, hfx⟩ := Option.isSome_iff_exists.mp hfixsome
        right
        refine ⟨fxv, ?_⟩
        rw [hs, List.getElem?_set_self hb, hfx]
        rcases hinv j p hp with hc | ⟨fx, hc⟩
        · rw [hc] at hgetj
          have he : e = p := (Option.some_injective _ hgetj).symm
          rw [he]
        · rw [hc] at hgetj
          have he : e = { p with fix := some fx } := (Option.some_injective _ hgetj).symm
          rw [he]
      · rw [hs, List.getElem?_set_ne hji]
        exact hinv i p hp

theorem merged_nvd_none (env : Env) (html : List Char) :
    ∀ f ∈ mergeFindings (pattern_match html) (runLLMStep env html).1, f.nvd_info = none :=
  mergeFindings_nvd (runLLMStep env html).1 (pattern_match html)
    (fun _ hf => pattern_match_nvd hf) (fun _ hf => runLLMStep_nvd hf)

/-! ### Claim C6 -/

/-- C6: the enrichment step of analyze_html adds an nvd_info entry to exactly
those merged findings whose cwe field is present and digit-only, changing no
other field; and the merge itself leaves each pattern finding unchanged
except that a pattern finding duplicating an LLM finding may gain that LLM
finding's fix. -/
theorem C6_enrichment_frame (env : Env) (html : List Char) (i : Nat) :
    ((((enrichAll (get_nvd_info env.fetch) (mergeFindings (pattern_match html)
        (runLLMStep env html).1)).1)[i]?).map eraseNvd
      = (((mergeFindings (pattern_match html) (runLLMStep env html).1))[i]?).map eraseNvd)
    ∧ ((((enrichAll (get_nvd_info env.fetch) (mergeFindings (pattern_match html)
        (runLLMStep env html).1)).1)[i]?).map (fun f => f.nvd_info.isSome)
      = (((mergeFindings (pattern_match html) (runLLMStep env html).1))[i]?).map cweDigit)
    ∧ ((pattern_match html)[i]? = none
      ∨ (mergeFindings (pattern_match html) (runLLMStep env html).1)[i]?
          = (pattern_match html)[i]?
      ∨ ∃ p fx, (pattern_match html)[i]? = some p
          ∧ (mergeFindings (pattern_match html) (runLLMStep env html).1)[i]?
              = some { p with fix := some fx }) := by
  refine ⟨?_, ?_, ?_⟩
  · rw [← List.getElem?_map, ← List.getElem?_map, enrichAll_map_eraseNvd]
  · cases hm : (mergeFindings (pattern_match html) (runLLMStep env html).1)[i]? with
    | none =>
      have hlen : (mergeFindings (pattern_match html) (runLLMStep env html).1).length ≤ i :=
        List.getElem?_eq_none_iff.mp hm
      have hnone : ((enrichAll (get_nvd_info env.fetch)
          (mergeFindings (pattern_match html) (runLLMStep env html).1)).1)[i]? = none := by
        rw [List.getElem?_eq_none_iff, enrichAll_length]
        exact hlen
      rw [hnone]
      rfl
    | some f =>
      have hmem : f ∈ mergeFindings (pattern_match html) (runLLMStep env html).1 := by
        obtain ⟨hb, he⟩ := List.getElem?_eq_some.mp hm
        exact he ▸ List.getElem_mem hb
      have hnvd : f.nvd_info = none := merged_nvd_none env html f hmem
      have hspec := enrichAll_getElem?_spec (get_nvd_info env.fetch) _ i f hm
      cases hcd : cweDigit f with
      | false =>
        rw [hspec.1 hcd]
        show some f.nvd_info.isSome = some (cweDigit f)
        rw [hnvd, hcd]
        rfl
      | true =>
        obtain ⟨ni, hni⟩ := hspec.2 hcd
        rw [hni]
        show some true = some (cweDigit f)
        rw [hcd]
  · cases hp : (pattern_match html)[i]? with
    | none => exact Or.inl rfl
    | some p =>
      have hpre := mergeFindings_getElem?_prefix (runLLMStep env html).1
        (pattern_match html) (pattern_match html) (fun _ _ hq => Or.inl hq) i p hp
      rcases hpre with hc | ⟨fx, hc⟩
      · exact Or.inr (Or.inl hc)
      · exact Or.inr (Or.inr ⟨p, fx, rfl, hc⟩)

/-! ### Claim C10 -/

/-- The invariant of the enrichment loop: the CWE ids passed to get_nvd_info
so far are pairwise distinct and digit-only, and each one is witnessed by a
finding already carrying its nvd_info (which is what the cache probe of
lines 425 to 426 finds). -/
def CallsInv (acc : List Finding × List (List Char)) : Prop :=
  acc.2.Nodup
  ∧ (∀ c ∈ acc.2, pyIsDigit c = true)
  ∧ ∀ c ∈ acc.2, ∃ (j : Nat) (f : Finding),
      acc.1[j]? = some f ∧ f.cwe = some c ∧ f.nvd_info.isSome = true

theorem findCached_none {l : List Finding} {c : List Char} (h : findCached l c = none) :
    ∀ f ∈ l, ¬(f.cwe = some c ∧ f.nvd_info.isSome = true) := by
  intro f hf hcontra
  rcases hcontra with ⟨hc, hs⟩
  have hall := List.findSome?_eq_none_iff.mp h f hf
  obtain ⟨ni, hni⟩ := Option.isSome_iff_exists.mp hs
  rw [hni] at hall
  simp only [hc, if_pos] at hall
  cases hall

theorem enrichStep_callsInv (g : List Char → NvdInfo)
    (acc : List Finding × List (List Char)) (i : Nat)
    (h : CallsInv acc) : CallsInv (enrichStep g acc i) := by
  rcases enrichStep_shape g acc i with hs | ⟨f, c, ni, hget, hcwe, hd, hs1, hcall⟩
  · rw [hs]
    exact h
  · rcases h with ⟨hnd, hdig, hwit⟩
    have hlt : i < acc.1.length := (List.getElem?_eq_some.mp hget).1
    have hwit' : ∀ c' ∈ acc.2, ∃ (j : Nat) (f' : Finding), ((enrichStep g acc i).1)[j]? = some f'
        ∧ f'.cwe = some c' ∧ f'.nvd_info.isSome = true := by
      intro c' hc'
      obtain ⟨j, f', hj, hjc, hjs⟩ := hwit c' hc'
      by_cases hji : j = i
      · subst hji
        rw [hget] at hj
        have hf' : f' = f := (Option.some_injective _ hj).symm
        rw [hf'] at hjc hjs
        refine ⟨j, { f with nvd_info := some ni }, ?_, hjc, rfl⟩
        rw [hs1, List.getElem?_set_self hlt]
      · refine ⟨j, f', ?_, hjc, hjs⟩
        rw [hs1, List.getElem?_set_ne (Ne.symm hji)]
        exact hj
    rcases hcall with ⟨_, hs2⟩ | ⟨hcached, _, hs2⟩
    · refine ⟨?_, ?_, ?_⟩
      · rw [hs2]
        exact hnd
      · intro c' hc'
        rw [hs2] at hc'
        exact hdig c' hc'
      · intro c' hc'
        rw [hs2] at hc'
        exact hwit' c' hc'
    · have hnotin : c ∉ acc.2 := by
        intro hin
        obtain ⟨j, f', hj, hjc, hjs⟩ := hwit c hin
        have hb : j < acc.1.length := (List.getElem?_eq_some.mp hj).1
        have hf'mem : f' ∈ acc.1 :=
          (List.getElem?_eq_some.mp hj).2 ▸ List.getElem_mem hb
        exact findCached_none hcached f' hf'mem ⟨hjc, hjs⟩
      refine ⟨?_, ?_, ?_⟩
      · rw [hs2]
        rw [List.nodup_append]
        refine ⟨hnd, List.nodup_singleton c, ?_⟩
        intro a ha hmem
        rw [List.mem_singleton] at hmem
        subst hmem
        exact hnotin ha
      · intro c' hc'
        rw [hs2] at hc'
        rcases List.mem_append.mp hc' with h1 | h1
        · exact hdig c' h1
        · rw [List.mem_singleton] at h1
          subst h1
          exact hd
      · intro c' hc'
        rw [hs2] at hc'
        rcases List.mem_append.mp hc' with h1 | h1
        · exact hwit' c' h1
        · rw [List.mem_singleton] at h1
          subst h1
          refine ⟨i, { f with nvd_info := some ni }, ?_, hcwe, rfl⟩
          rw [hs1, List.getElem?_set_self hlt]

theorem enrichGo_callsInv (g : List Char → NvdInfo) :
    ∀ (idxs : List Nat) (acc : List Finding × List (List Char)),
      CallsInv acc → CallsInv (idxs.foldl (enrichStep g) acc) := by
  intro idxs
  induction idxs with
  | nil => intro acc h; exact h
  | cons j t ih =>
    intro acc h
    exact ih (enrichStep g acc j) (enrichStep_callsInv g acc j h)

theorem enrichAll_calls (g : List Char → NvdInfo) (l : List Finding) :
    ((enrichAll g l).2).Nodup ∧ ∀ c ∈ (enrichAll g l).2, pyIsDigit c = true := by
  have h := enrichGo_callsInv g (List.range l.length) (l, [])
    ⟨List.nodup_nil, fun c hc => absurd hc (List.not_mem_nil c),
     fun c hc => absurd hc (List.not_mem_nil c)⟩
  exact ⟨h.1, h.2.1⟩

/-- C10: within one analyze_html call, get_nvd_info is invoked at most once
per distinct digit-only CWE value: the call list of the enrichment loop over
the merged findings holds pairwise distinct, digit-only CWE ids, because a
finding enriched earlier with the same CWE is found by the cache probe and
its entry reused. -/
theorem C10_nvd_lookup_once (env : Env) (html : List Char) :
    ((enrichAll (get_nvd_info env.fetch)
        (mergeFindings (pattern_match html) (runLLMStep env html).1)).2).Nodup
    ∧ ∀ c ∈ (enrichAll (get_nvd_info env.fetch)
        (mergeFindings (pattern_match html) (runLLMStep env html).1)).2,
        pyIsDigit c = true :=
  enrichAll_calls (get_nvd_info env.fetch)
    (mergeFindings (pattern_match html) (runLLMStep env html).1)

end SecurityAnalyzer
